import Mathlib

/-!
Verification of the broadcast/lifecycle core of the alohartc media-source
package (`v4l2_media_source.go` and the media-source interface file).

The Go code is shallowly embedded: the `tracks` map of a `V4L2MediaSource`
becomes an association list keyed by fresh track identities, and the calls the
source makes into the capture-device adapter (`Start`, `Stop`, `Close`,
`Read`) are recorded in the state so that start/stop bookkeeping and
error-path behaviour can be stated and proved.
-/

namespace Alohartc

/-- A chunk of bytes read from the capture device in one `Read` call
(the contents of `buf[:n]` in `readLoop`). Bytes are modelled as naturals. -/
abbrev Chunk := List Nat

/-- Track identity. In the Go code tracks are the keys of the `tracks` map;
each `NewH264VideoTrack` result is modelled by the fresh identifier the
source assigns to it. -/
abbrev TrackId := Nat

/-- Modelled from the spec: the Broadcast Buffer (`Buffer`/`NewBuffer` is not
among the given source files). Per spec section 4.2 it is a single-writer
conduit whose writes append and whose reader sees data in write order, so its
contents are represented as the list of chunks written so far. -/
abbrev Buffer := List Chunk

/-- State of a `V4L2MediaSource` (struct at v4l2_media_source.go lines 17-22),
instrumented with the device-adapter calls the spec talks about.

* `tracks` is the `map[Track]*Buffer` association map, kept as an ordered
  association list; each entry pairs a track identity with the contents of
  its broadcast buffer.
* `nextId` supplies fresh track identities for `GetTrack`.
* `running` records whether the device is between a `Start()` and a `Stop()`.
* `startCount`/`stopCount` count the `device.Start()`/`device.Stop()` calls.
* `deviceClosed` records that `device.Close()` has been called.
* `closedBuffers` records every `buffer.Close()` call made by `CloseTrack`,
  together with the buffer's final contents. -/
structure SourceState where
  tracks : List (TrackId × Buffer)
  nextId : TrackId
  running : Bool
  startCount : Nat
  stopCount : Nat
  deviceClosed : Bool
  closedBuffers : List (TrackId × Buffer)
deriving Repr, DecidableEq

/-- The state of a freshly constructed source: empty `tracks` map
(`make(map[Track]*Buffer)` at line 65), device opened but not started. -/
def initState : SourceState :=
  { tracks := []
    nextId := 0
    running := false
    startCount := 0
    stopCount := 0
    deviceClosed := false
    closedBuffers := [] }

/-- `GetTrack` (v4l2_media_source.go lines 81-94): allocate a new buffer and
track, add the association to the map, and if the map now has exactly one
entry, start the device (and launch the read loop). Returns the new track's
identity together with the updated state. There is no failure path: the Go
signature is `GetTrack() Track`, with no error result and no closed-check. -/
def getTrack (s : SourceState) : TrackId × SourceState :=
  if (s.tracks ++ [(s.nextId, ([] : Buffer))]).length = 1 then
    (s.nextId, { s with tracks := s.tracks ++ [(s.nextId, ([] : Buffer))]
                        nextId := s.nextId + 1
                        running := true
                        startCount := s.startCount + 1 })
  else
    (s.nextId, { s with tracks := s.tracks ++ [(s.nextId, ([] : Buffer))]
                        nextId := s.nextId + 1 })

/-- `CloseTrack` (v4l2_media_source.go lines 97-112): look the track up in the
map; if absent, return immediately; otherwise delete it, stop the device if
the map became empty, and close the track's buffer. -/
def closeTrack (track : TrackId) (s : SourceState) : SourceState :=
  match s.tracks.find? (fun p => p.1 == track) with
  | none => s
  | some (_, buffer) =>
    if (s.tracks.filter (fun p => p.1 != track)).length = 0 then
      { s with tracks := s.tracks.filter (fun p => p.1 != track)
               running := false
               stopCount := s.stopCount + 1
               closedBuffers := s.closedBuffers ++ [(track, buffer)] }
    else
      { s with tracks := s.tracks.filter (fun p => p.1 != track)
               closedBuffers := s.closedBuffers ++ [(track, buffer)] }

/-- The fan-out write of `readLoop` (v4l2_media_source.go lines 132-134): on a
successful device read, write a copy of the chunk into every currently
associated buffer. -/
def writeAll (c : Chunk) (s : SourceState) : SourceState :=
  { s with tracks := s.tracks.map (fun p => (p.1, p.2 ++ [c])) }

/-- Closing every outstanding track through `CloseTrack`, as done by the
deferred function of `readLoop` (lines 119-123) and by `Close` (lines 72-74):
iterate over the keys of the current map and call `CloseTrack` on each. -/
def closeAll (s : SourceState) : SourceState :=
  (s.tracks.map Prod.fst).foldl (fun acc t => closeTrack t acc) s

/-- `Close` (v4l2_media_source.go lines 71-77): close every outstanding track
via `CloseTrack`, then close the underlying device. -/
def sourceClose (s : SourceState) : SourceState :=
  { closeAll s with deviceClosed := true }

/-- One external event applied to a source: a `GetTrack` call, a
`CloseTrack t` call, a successful device read of chunk `c` fanned out by the
read loop, a failing device read (which makes the loop close all tracks and
exit), or a `Close` call on the source. -/
inductive Ev where
  | get
  | closeT (t : TrackId)
  | read (c : Chunk)
  | readErr
  | closeSource
deriving Repr, DecidableEq

/-- Apply one event to the source state, following the Go code. -/
def step (s : SourceState) : Ev → SourceState
  | Ev.get => (getTrack s).2
  | Ev.closeT t => closeTrack t s
  | Ev.read c => writeAll c s
  | Ev.readErr => closeAll s
  | Ev.closeSource => sourceClose s

/-- Run a sequence of events from a given state. -/
def runFrom (es : List Ev) (s : SourceState) : SourceState :=
  es.foldl step s

/-- Run a sequence of events from the freshly constructed source. -/
def run (es : List Ev) : SourceState :=
  runFrom es initState

/-- The events following the `GetTrack` call that received identity `n`
(identities are assigned `0, 1, 2, ...` in order of the `get` events), or
`none` if fewer than `n + 1` `get` events occur. -/
def postSub : List Ev → Nat → Option (List Ev)
  | [], _ => none
  | Ev.get :: rest, 0 => some rest
  | Ev.get :: rest, Nat.succ n => postSub rest n
  | Ev.closeT _ :: rest, n => postSub rest n
  | Ev.read _ :: rest, n => postSub rest n
  | Ev.readErr :: rest, n => postSub rest n
  | Ev.closeSource :: rest, n => postSub rest n

/-- The chunks delivered to track `t` by a suffix of events: every chunk read
while `t` stays associated, in device order, cut off when `t` is closed,
when a read error closes all tracks, or when the source is closed. -/
def collect (t : TrackId) : List Ev → List Chunk
  | [] => []
  | Ev.get :: rest => collect t rest
  | Ev.read c :: rest => c :: collect t rest
  | Ev.closeT t' :: rest => if t' == t then [] else collect t rest
  | Ev.readErr :: _ => []
  | Ev.closeSource :: _ => []

/-- Specification of the stream track `t` should receive over a whole event
sequence: nothing before its `GetTrack`, then exactly the chunks read after
its association was added, in order, with no gaps. -/
def specDelivered (es : List Ev) (t : TrackId) : List Chunk :=
  (postSub es t).elim [] (collect t)

/-- Result of one `device.Read(buf)` call in `readLoop`: a chunk, or an error. -/
inductive ReadResult where
  | ok (c : Chunk)
  | fail
deriving Repr, DecidableEq

/-- `readLoop` (v4l2_media_source.go lines 117-136) applied to a list of
device read results: on success fan the chunk out to every associated buffer
and loop; on error run the deferred close-all and return. The second
component counts how many `device.Read` calls were consumed. -/
def readLoopRun : List ReadResult → SourceState → SourceState × Nat
  | [], s => (s, 0)
  | ReadResult.ok c :: rest, s =>
    let r := readLoopRun rest (writeAll c s)
    (r.1, r.2 + 1)
  | ReadResult.fail :: _, s => (closeAll s, 1)

/-- First half of `GetTrack` as written (lines 83-85), with no lock around the
shared map: create the buffer and track and insert the association. -/
def getTrackInsert (s : SourceState) : SourceState :=
  { s with tracks := s.tracks ++ [(s.nextId, ([] : Buffer))], nextId := s.nextId + 1 }

/-- Second half of `GetTrack` (lines 88-91): the unsynchronized
`len(ms.tracks) == 1` check and the conditional `device.Start()`. -/
def getTrackCheckStart (s : SourceState) : SourceState :=
  if s.tracks.length = 1 then
    { s with running := true, startCount := s.startCount + 1 }
  else
    s

/-- Invariant tying the device state to the association map, maintained by
every operation of the source. -/
structure Inv (s : SourceState) : Prop where
  keysLt : ∀ p ∈ s.tracks, p.1 < s.nextId
  nodupKeys : (s.tracks.map Prod.fst).Nodup
  runIff : s.running = !s.tracks.isEmpty
  counts : s.startCount = s.stopCount + (if s.running then 1 else 0)

/-! ### Constructor model

The `internal/v4l2` adapter is repository code outside the given sources.
Modelled from the spec (section 6): `Open(path, config) -> (Device, error)`,
`Device.SetBitrate`, `Device.FlipHorizontal`, `Device.FlipVertical`,
`Device.Close`. The outcomes of those calls are supplied by an oracle, and the
constructor records the adapter calls it actually makes. -/

/-- Abstract adapter error value, compared by identity so that verbatim
propagation is expressible. -/
abbrev DevErr := Nat

/-- The `v4l2.Config` literal built by `NewV4L2MediaSource` (lines 33-38). -/
structure V4L2Config where
  width : Nat
  height : Nat
  format : Nat
  repeatSequenceHeader : Bool
deriving Repr, DecidableEq

/-- Modelled from the spec: the H.264 pixel-format constant
`v4l2.V4L2_PIX_FMT_H264` of the adapter (its numeric value is the V4L2
fourcc; only its identity matters here). -/
def V4L2_PIX_FMT_H264 : Nat := 0x34363248

/-- Modelled from the spec: outcomes of the adapter calls that
`NewV4L2MediaSource` makes, one oracle field per call site
(`none` = success, `some e` = the error returned). -/
structure DevOracle where
  openErr : Option DevErr
  setBitrateErr : Option DevErr
  flipHErr : Option DevErr
  flipVErr : Option DevErr
deriving Repr, DecidableEq

/-- An adapter call made during construction. -/
inductive DevOp where
  | openDevice (filename : String) (cfg : V4L2Config)
  | setBitrate (bitrate : Nat)
  | flipHorizontal
  | flipVertical
  | closeDevice
deriving Repr, DecidableEq

/-- The `V4L2MediaSource` value built on the success path (lines 63-66):
its `tracks` map, freshly allocated and empty. -/
structure V4L2MediaSource where
  tracks : List (TrackId × Buffer)
deriving Repr, DecidableEq

/-- `NewV4L2MediaSource` (v4l2_media_source.go lines 25-67): open the device
with the H.264 config, set the initial bitrate, apply the requested flips, and
only then build the source object. Any error aborts construction and is
returned as-is, with no source object. The result pairs
`(error?, source?)` with the list of adapter calls performed. -/
def newV4L2MediaSource (o : DevOracle) (filename : String)
    (width height bitrate : Nat) (hflip vflip : Bool) :
    (Option DevErr × Option V4L2MediaSource) × List DevOp :=
  let cfg : V4L2Config :=
    { width := width
      height := height
      format := V4L2_PIX_FMT_H264
      repeatSequenceHeader := true }
  let ops := [DevOp.openDevice filename cfg]
  match o.openErr with
  | some e => ((some e, none), ops)
  | none =>
    let ops := ops ++ [DevOp.setBitrate bitrate]
    match o.setBitrateErr with
    | some e => ((some e, none), ops)
    | none =>
      let ops := if hflip then ops ++ [DevOp.flipHorizontal] else ops
      match (if hflip then o.flipHErr else none : Option DevErr) with
      | some e => ((some e, none), ops)
      | none =>
        let ops := if vflip then ops ++ [DevOp.flipVertical] else ops
        match (if vflip then o.flipVErr else none : Option DevErr) with
        | some e => ((some e, none), ops)
        | none => ((none, some { tracks := [] }), ops)

/-! ### RTSP combined-source stub

`errNotImplemented` is repository code outside the given sources. Modelled
from the spec (section 7): a distinct "not implemented" error kind, separate
from the "not supported" kind returned by unsupported control operations. -/

/-- Modelled from the spec: the error kinds of section 7 that are compared by
identity in the media package. -/
inductive MediaError where
  | notImplemented
  | notSupported
deriving Repr, DecidableEq

/-- Modelled from the spec: the package-level `errNotImplemented` value. -/
def errNotImplemented : MediaError := MediaError.notImplemented

/-- The combined RTSP audio/video source (part_000 lines 108-111), a struct
embedding an audio sourcer and a video sourcer; the capabilities are opaque
here. -/
structure RTSPAudioVideoSource where
  audioPart : Unit
  videoPart : Unit
deriving Repr, DecidableEq

/-- `NewRTSPAudioVideoSource` (part_000 lines 113-115):
`return nil, errNotImplemented`. -/
def newRTSPAudioVideoSource (_url : String) :
    Option RTSPAudioVideoSource × Option MediaError :=
  (none, some errNotImplemented)

/-! ### Basic lemmas about the operations -/

lemma closeTrack_tracks (t : TrackId) (s : SourceState) :
    (closeTrack t s).tracks = s.tracks.filter (fun p => p.1 != t) := by
  unfold closeTrack
  split
  next heq =>
    have hall : ∀ p ∈ s.tracks, (p.1 != t) = true := by
      intro p hp
      simpa [bne] using List.find?_eq_none.mp heq p hp
    simpa using (List.filter_eq_self.mpr hall).symm
  next a buffer heq =>
    split <;> rfl

lemma closeTrack_nextId (t : TrackId) (s : SourceState) :
    (closeTrack t s).nextId = s.nextId := by
  unfold closeTrack
  split
  · rfl
  · split <;> rfl

lemma closeTrack_startCount (t : TrackId) (s : SourceState) :
    (closeTrack t s).startCount = s.startCount := by
  unfold closeTrack
  split
  · rfl
  · split <;> rfl

lemma find?_filter_ne (l : List (TrackId × Buffer)) (t : TrackId) :
    (l.filter (fun p => p.1 != t)).find? (fun p => p.1 == t) = none := by
  apply List.find?_eq_none.mpr
  intro p hp
  have hne : (p.1 != t) = true := (List.mem_filter.mp hp).2
  simpa [bne] using hne

lemma closeTrack_notMem (t : TrackId) (s : SourceState)
    (h : ∀ p ∈ s.tracks, p.1 ≠ t) : closeTrack t s = s := by
  have hnone : s.tracks.find? (fun p => p.1 == t) = none := by
    apply List.find?_eq_none.mpr
    intro p hp
    simpa using h p hp
  unfold closeTrack
  rw [hnone]

/-- C5: `CloseTrack` is idempotent: on a track absent from the association map
it returns the state unchanged (no panic, no error, no effect on the map, the
device state, or any other track's buffer), and closing the same track twice
has the same effect as closing it once. -/
theorem c5_closeTrack_idempotent (s : SourceState) (t : TrackId) :
    ((∀ p ∈ s.tracks, p.1 ≠ t) → closeTrack t s = s) ∧
    closeTrack t (closeTrack t s) = closeTrack t s := by
  refine ⟨closeTrack_notMem t s, ?_⟩
  apply closeTrack_notMem
  intro p hp
  rw [closeTrack_tracks] at hp
  have := (List.mem_filter.mp hp).2
  simpa [bne] using this

/-- Witness for C5 at a concrete state: track `5` is not in the map of a
source with one open track, and closing it changes nothing; closing track `0`
twice equals closing it once. -/
theorem c5_closeTrack_idempotent_witness :
    closeTrack 5 (run [Ev.get]) = run [Ev.get] ∧
    closeTrack 0 (closeTrack 0 (run [Ev.get])) = closeTrack 0 (run [Ev.get]) :=
  ⟨(c5_closeTrack_idempotent (run [Ev.get]) 5).1 (by decide),
   (c5_closeTrack_idempotent (run [Ev.get]) 0).2⟩

/-- C8: `NewRTSPAudioVideoSource` returns, for every URL, a nil instance
together with the distinct not-implemented error; it never returns a usable
combined source, and the not-implemented kind is distinct from the
not-supported kind. -/
theorem c8_rtsp_constructor_always_not_implemented :
    ∀ url : String,
      newRTSPAudioVideoSource url = (none, some errNotImplemented) ∧
      errNotImplemented ≠ MediaError.notSupported := by
  intro url
  exact ⟨rfl, by decide⟩

/-- C9: whatever the filename, width, height, bitrate and flip arguments, the
first (and only) `Open` call of `NewV4L2MediaSource` uses a config whose
format is fixed to `V4L2_PIX_FMT_H264` and whose `RepeatSequenceHeader` is
fixed to `true`; the caller cannot select any other format. -/
theorem c9_open_format_fixed_h264 (o : DevOracle) (filename : String)
    (width height bitrate : Nat) (hflip vflip : Bool) :
    (newV4L2MediaSource o filename width height bitrate hflip vflip).2.head? =
      some (DevOp.openDevice filename
        { width := width
          height := height
          format := V4L2_PIX_FMT_H264
          repeatSequenceHeader := true }) := by
  unfold newV4L2MediaSource
  rcases o with ⟨oe, sbe, fhe, fve⟩
  cases oe <;> cases sbe <;> cases hflip <;> cases vflip <;> cases fhe <;> cases fve <;> rfl

/-- C7: `NewV4L2MediaSource` never returns a partial object: a source is
returned exactly when the error is nil; a device-open failure is propagated
verbatim with a nil source; and any returned source has its track map
initialized and empty. -/
theorem c7_constructor_no_partial_object (o : DevOracle) (filename : String)
    (width height bitrate : Nat) (hflip vflip : Bool) :
    ((newV4L2MediaSource o filename width height bitrate hflip vflip).1.2 = none ↔
      (newV4L2MediaSource o filename width height bitrate hflip vflip).1.1 ≠ none) ∧
    (∀ e, o.openErr = some e →
      (newV4L2MediaSource o filename width height bitrate hflip vflip).1 = (some e, none)) ∧
    (∀ src, (newV4L2MediaSource o filename width height bitrate hflip vflip).1.2 = some src →
      (newV4L2MediaSource o filename width height bitrate hflip vflip).1.1 = none ∧
      src.tracks = []) := by
  unfold newV4L2MediaSource
  rcases o with ⟨oe, sbe, fhe, fve⟩
  cases oe <;> cases sbe <;> cases hflip <;> cases vflip <;> cases fhe <;> cases fve <;> simp

/-- Witness for C7: a failing open with error `7` yields `(some 7, nil)`, and
a fully successful construction yields a source with an empty track map. -/
theorem c7_constructor_no_partial_object_witness :
    (newV4L2MediaSource ⟨some 7, none, none, none⟩ "dev" 640 480 1000 false false).1 =
      (some 7, none) ∧
    ((newV4L2MediaSource ⟨none, none, none, none⟩ "dev" 640 480 1000 false false).1.1 = none ∧
      (⟨[]⟩ : V4L2MediaSource).tracks = []) :=
  ⟨(c7_constructor_no_partial_object ⟨some 7, none, none, none⟩ "dev" 640 480 1000
      false false).2.1 7 rfl,
   (c7_constructor_no_partial_object ⟨none, none, none, none⟩ "dev" 640 480 1000
      false false).2.2 ⟨[]⟩ rfl⟩

/-- C10: when the open succeeds but a later constructor step (`SetBitrate`,
`FlipHorizontal` or `FlipVertical`) fails, the constructor returns the error
with a nil source and performs no `Close` on the already-opened device: the
adapter-call trace contains no close, so the device handle is left open. -/
theorem c10_error_after_open_no_device_close (o : DevOracle) (filename : String)
    (width height bitrate : Nat) (hflip vflip : Bool)
    (hopen : o.openErr = none)
    (herr : (newV4L2MediaSource o filename width height bitrate hflip vflip).1.1 ≠ none) :
    DevOp.closeDevice ∉ (newV4L2MediaSource o filename width height bitrate hflip vflip).2 ∧
    (newV4L2MediaSource o filename width height bitrate hflip vflip).1.2 = none := by
  unfold newV4L2MediaSource at herr ⊢
  rcases o with ⟨oe, sbe, fhe, fve⟩
  cases oe <;> cases sbe <;> cases hflip <;> cases vflip <;> cases fhe <;> cases fve <;>
    simp_all

/-- Witness for C10: with a successful open and a failing `SetBitrate`, no
close appears in the adapter trace and no source is returned. -/
theorem c10_error_after_open_no_device_close_witness :
    DevOp.closeDevice ∉
      (newV4L2MediaSource ⟨none, some 7, none, none⟩ "dev" 640 480 1000 false false).2 ∧
    (newV4L2MediaSource ⟨none, some 7, none, none⟩ "dev" 640 480 1000 false false).1.2 =
      none :=
  c10_error_after_open_no_device_close ⟨none, some 7, none, none⟩ "dev" 640 480 1000
    false false rfl (by decide)

/-- C3 fails on the code: `GetTrack` has no closed-check and no error path
(its Go signature is `GetTrack() Track`), so after `Close()` it does not
fail — evaluated after opening one track and closing the source, a further
`GetTrack()` inserts a fresh live track and calls `Start()` on the
already-closed device (the start counter increments while `deviceClosed`
is true), resurrecting it instead of failing. -/
theorem c3_getTrack_after_close_restarts_closed_device :
    (run [Ev.get, Ev.closeSource]).deviceClosed = true ∧
    (getTrack (run [Ev.get, Ev.closeSource])).2.tracks =
      [((getTrack (run [Ev.get, Ev.closeSource])).1, [])] ∧
    (getTrack (run [Ev.get, Ev.closeSource])).2.startCount =
      (run [Ev.get, Ev.closeSource]).startCount + 1 ∧
    (getTrack (run [Ev.get, Ev.closeSource])).2.running = true := by
  decide

/-- C6 fails on the code: `GetTrack`, `CloseTrack`, `Close` and the read loop
access `ms.tracks` with no mutex whatsoever, so the map is not protected by
any mutual-exclusion discipline. `GetTrack` decomposes into its two
unsynchronized halves (map insert, then the `len == 1` check with conditional
`Start`); interleaving two `GetTrack` calls as insert, insert, check, check —
an interleaving nothing in the code forbids — leaves two live tracks with the
device never started, corrupting the start/stop bookkeeping the claim says is
protected. -/
theorem c6_unsynchronized_interleaving_breaks_bookkeeping :
    (∀ s : SourceState, (getTrack s).2 = getTrackCheckStart (getTrackInsert s)) ∧
    (getTrackCheckStart (getTrackCheckStart
        (getTrackInsert (getTrackInsert initState)))).tracks.length = 2 ∧
    (getTrackCheckStart (getTrackCheckStart
        (getTrackInsert (getTrackInsert initState)))).running = false ∧
    (getTrackCheckStart (getTrackCheckStart
        (getTrackInsert (getTrackInsert initState)))).startCount = 0 := by
  refine ⟨?_, by decide, by decide, by decide⟩
  intro s
  unfold getTrack getTrackInsert getTrackCheckStart
  split <;> rfl

/-! ### The start/stop invariant -/

lemma getTrack_snd_tracks (s : SourceState) :
    ((getTrack s).2).tracks = s.tracks ++ [(s.nextId, ([] : Buffer))] := by
  unfold getTrack
  split <;> rfl

lemma getTrack_nextId (s : SourceState) :
    ((getTrack s).2).nextId = s.nextId + 1 := by
  unfold getTrack
  split <;> rfl

lemma getTrack_fst (s : SourceState) : (getTrack s).1 = s.nextId := by
  unfold getTrack
  split <;> rfl

lemma writeAll_tracks (c : Chunk) (s : SourceState) :
    (writeAll c s).tracks = s.tracks.map (fun p => (p.1, p.2 ++ [c])) := rfl

lemma writeAll_keys (c : Chunk) (s : SourceState) :
    (writeAll c s).tracks.map Prod.fst = s.tracks.map Prod.fst := by
  rw [writeAll_tracks, List.map_map]
  rfl

lemma isEmpty_false_of_ne_nil {α : Type} {l : List α} (h : l ≠ []) :
    l.isEmpty = false := by
  cases l with
  | nil => exact absurd rfl h
  | cons a l => rfl

lemma running_true_of_ne_nil {s : SourceState} (h : Inv s)
    (hne : s.tracks ≠ []) : s.running = true := by
  rw [h.runIff, isEmpty_false_of_ne_nil hne]
  rfl

lemma inv_initState : Inv initState := by
  constructor <;> simp [initState]

lemma inv_getTrack {s : SourceState} (h : Inv s) : Inv (getTrack s).2 := by
  have hfresh : s.nextId ∉ s.tracks.map Prod.fst := by
    intro hmem
    rcases List.mem_map.mp hmem with ⟨p, hp, hfst⟩
    exact absurd (hfst ▸ h.keysLt p hp) (lt_irrefl _)
  unfold getTrack
  split
  next hc =>
    have hnil : s.tracks = [] := by
      have h1 : s.tracks.length + 1 = 1 := by simpa using hc
      exact List.eq_nil_of_length_eq_zero (by omega)
    constructor
    · intro p hp
      simp only [hnil, List.nil_append, List.mem_singleton] at hp
      simp [hp]
    · simp [hnil]
    · simp [hnil]
    · have hrun : s.running = false := by simpa [hnil] using h.runIff
      have hc2 := h.counts
      rw [hrun] at hc2
      simp only [Bool.false_eq_true, if_false, Nat.add_zero] at hc2
      simp [hc2]
  next hc =>
    have hne : s.tracks ≠ [] := by
      intro hnil
      simp [hnil] at hc
    have hrun : s.running = true := running_true_of_ne_nil h hne
    constructor
    · intro p hp
      rcases List.mem_append.mp hp with hp | hp
      · exact Nat.lt_succ_of_lt (h.keysLt p hp)
      · simp only [List.mem_singleton] at hp
        simp [hp]
    · simp only [List.map_append, List.map_cons, List.map_nil]
      rw [List.nodup_append]
      exact ⟨h.nodupKeys, List.nodup_singleton _, by
        intro a ha hb
        simp only [List.mem_singleton] at hb
        exact hfresh (hb ▸ ha)⟩
    · simp [hrun, List.isEmpty_iff]
    · simpa [hrun] using h.counts

lemma inv_closeTrack {s : SourceState} (h : Inv s) (t : TrackId) :
    Inv (closeTrack t s) := by
  unfold closeTrack
  split
  next => exact h
  next a buffer heq =>
    have hmem : (a, buffer) ∈ s.tracks := List.mem_of_find?_eq_some heq
    have hne : s.tracks ≠ [] := List.ne_nil_of_mem hmem
    have hrun : s.running = true := running_true_of_ne_nil h hne
    have hsub : (s.tracks.filter (fun p => p.1 != t)).map Prod.fst |>.Nodup := by
      exact h.nodupKeys.sublist (List.Sublist.map Prod.fst (List.filter_sublist _))
    split
    next hlen =>
      have hnil : s.tracks.filter (fun p => p.1 != t) = [] :=
        List.length_eq_zero.mp hlen
      constructor
      · intro p hp
        simp [hnil] at hp
      · simp [hnil]
      · simp [hnil]
      · have := h.counts
        simp only [hrun, if_pos trivial] at this
        simpa using this
    next hlen =>
      have hne' : s.tracks.filter (fun p => p.1 != t) ≠ [] := by
        intro hnil
        exact hlen (by simp [hnil])
      constructor
      · intro p hp
        exact h.keysLt p (List.mem_of_mem_filter hp)
      · exact hsub
      · rw [isEmpty_false_of_ne_nil hne']
        exact hrun
      · simpa [hrun] using h.counts

lemma inv_writeAll {s : SourceState} (h : Inv s) (c : Chunk) :
    Inv (writeAll c s) := by
  constructor
  · intro p hp
    rcases List.mem_map.mp hp with ⟨q, hq, hfq⟩
    have := h.keysLt q hq
    simpa [← hfq] using this
  · simpa using (writeAll_keys c s) ▸ h.nodupKeys
  · have : (writeAll c s).tracks.isEmpty = s.tracks.isEmpty := by
      rw [writeAll_tracks]
      cases s.tracks <;> rfl
    rw [show (writeAll c s).running = s.running from rfl, this]
    exact h.runIff
  · exact h.counts

lemma inv_foldl_closeTrack (ks : List TrackId) :
    ∀ s : SourceState, Inv s → Inv (ks.foldl (fun acc t => closeTrack t acc) s) := by
  induction ks with
  | nil => intro s h; simpa using h
  | cons k ks ih =>
    intro s h
    simpa using ih (closeTrack k s) (inv_closeTrack h k)

lemma inv_closeAll {s : SourceState} (h : Inv s) : Inv (closeAll s) :=
  inv_foldl_closeTrack _ s h

lemma inv_sourceClose {s : SourceState} (h : Inv s) : Inv (sourceClose s) :=
  ⟨(inv_closeAll h).keysLt, (inv_closeAll h).nodupKeys,
   (inv_closeAll h).runIff, (inv_closeAll h).counts⟩

lemma inv_step {s : SourceState} (h : Inv s) (e : Ev) : Inv (step s e) := by
  cases e with
  | get => exact inv_getTrack h
  | closeT t => exact inv_closeTrack h t
  | read c => exact inv_writeAll h c
  | readErr => exact inv_closeAll h
  | closeSource => exact inv_sourceClose h

lemma inv_runFrom (es : List Ev) :
    ∀ s : SourceState, Inv s → Inv (runFrom es s) := by
  induction es with
  | nil => intro s h; simpa [runFrom] using h
  | cons e es ih =>
    intro s h
    simpa [runFrom] using ih (step s e) (inv_step h e)

lemma inv_run (es : List Ev) : Inv (run es) :=
  inv_runFrom es initState inv_initState

lemma getTrack_startCount_char (s : SourceState) :
    (getTrack s).2.startCount =
      s.startCount + (if s.tracks.isEmpty then 1 else 0) := by
  unfold getTrack
  split
  next hc =>
    have hnil : s.tracks = [] := by
      have h1 : s.tracks.length + 1 = 1 := by simpa using hc
      exact List.eq_nil_of_length_eq_zero (by omega)
    simp [hnil]
  next hc =>
    have hne : s.tracks ≠ [] := by
      intro hnil
      simp [hnil] at hc
    simp [isEmpty_false_of_ne_nil hne]

lemma closeTrack_stopCount_char {s : SourceState} (h : Inv s) (t : TrackId) :
    (closeTrack t s).stopCount =
      s.stopCount +
        (if s.tracks.length = 1 ∧ s.tracks.any (fun p => p.1 == t) = true
         then 1 else 0) := by
  unfold closeTrack
  split
  next heq =>
    have hany : s.tracks.any (fun p => p.1 == t) = false := by
      rw [List.any_eq_false]
      intro p hp
      simpa using List.find?_eq_none.mp heq p hp
    simp [hany]
  next a buffer heq =>
    have hmem : (a, buffer) ∈ s.tracks := List.mem_of_find?_eq_some heq
    have hkey : a = t := by simpa using List.find?_some heq
    have hany : s.tracks.any (fun p => p.1 == t) = true :=
      List.any_eq_true.mpr ⟨(a, buffer), hmem, by simp [hkey]⟩
    split
    next hlen =>
      have hnil : s.tracks.filter (fun p => p.1 != t) = [] :=
        List.length_eq_zero.mp hlen
      have hallt : ∀ p ∈ s.tracks, p.1 = t := by
        intro p hp
        have := List.filter_eq_nil_iff.mp hnil p hp
        simpa [bne] using this
      have hlen1 : s.tracks.length = 1 := by
        rcases hcase : s.tracks with _ | ⟨x, _ | ⟨y, l⟩⟩
        · exact absurd (hcase ▸ hmem) (by simp)
        · rfl
        · exfalso
          have hx : x.1 = t := hallt x (by simp [hcase])
          have hy : y.1 = t := hallt y (by simp [hcase])
          have hnd := h.nodupKeys
          rw [hcase] at hnd
          simp only [List.map_cons, List.nodup_cons, List.mem_cons] at hnd
          exact hnd.1 (Or.inl (hx.trans hy.symm))
      simp [hlen1, hany]
    next hlen =>
      have hnot : ¬(s.tracks.length = 1 ∧ s.tracks.any (fun p => p.1 == t) = true) := by
        rintro ⟨hlen1, -⟩
        rcases List.length_eq_one.mp hlen1 with ⟨p, hp⟩
        have hpmem : (a, buffer) ∈ [p] := hp ▸ hmem
        have hpe : (a, buffer) = p := by simpa using hpmem
        apply hlen
        rw [hp, ← hpe]
        simp [hkey]
      rw [if_neg hnot]
      rfl

/-- C2: for every reachable state, the device is running iff the association
map is non-empty; the start and stop counters always satisfy
`starts = stops + (running ? 1 : 0)` (so starts and stops strictly alternate
and neither can double up); a `GetTrack` at that state calls `Start` exactly
when the map size transitions 0 to 1; and a `CloseTrack` calls `Stop` exactly
when it removes the last association (size transitions 1 to 0). -/
theorem c2_device_running_iff_tracks_nonempty (es : List Ev) :
    (run es).running = !(run es).tracks.isEmpty ∧
    (run es).startCount =
      (run es).stopCount + (if (run es).running then 1 else 0) ∧
    (getTrack (run es)).2.startCount =
      (run es).startCount + (if (run es).tracks.isEmpty then 1 else 0) ∧
    (∀ t, (closeTrack t (run es)).stopCount =
      (run es).stopCount +
        (if (run es).tracks.length = 1 ∧
            (run es).tracks.any (fun p => p.1 == t) = true
         then 1 else 0)) :=
  ⟨(inv_run es).runIff, (inv_run es).counts,
   getTrack_startCount_char (run es),
   fun t => closeTrack_stopCount_char (inv_run es) t⟩

/-! ### The close-all path of the read loop -/

lemma closeTrack_spec (t : TrackId) (s : SourceState) :
    (s.tracks.find? (fun p => p.1 == t) = none ∧ closeTrack t s = s) ∨
    (∃ a buffer, s.tracks.find? (fun p => p.1 == t) = some (a, buffer) ∧
      (closeTrack t s).tracks = s.tracks.filter (fun p => p.1 != t) ∧
      (closeTrack t s).closedBuffers = s.closedBuffers ++ [(t, buffer)] ∧
      ((s.tracks.filter (fun p => p.1 != t)).length = 0 →
        (closeTrack t s).running = false ∧
        (closeTrack t s).stopCount = s.stopCount + 1) ∧
      ((s.tracks.filter (fun p => p.1 != t)).length ≠ 0 →
        (closeTrack t s).running = s.running ∧
        (closeTrack t s).stopCount = s.stopCount)) := by
  unfold closeTrack
  split
  next heq => exact Or.inl ⟨heq, rfl⟩
  next a buffer heq =>
    refine Or.inr ⟨a, buffer, heq, ?_, ?_, ?_, ?_⟩
    · split <;> rfl
    · split <;> rfl
    · intro hc
      rw [if_pos hc]
      exact ⟨rfl, rfl⟩
    · intro hc
      rw [if_neg hc]
      exact ⟨rfl, rfl⟩

lemma foldl_closeTrack_tracks_nil (ks : List TrackId) :
    ∀ s : SourceState, (∀ p ∈ s.tracks, p.1 ∈ ks) →
      (ks.foldl (fun acc t => closeTrack t acc) s).tracks = [] := by
  induction ks with
  | nil =>
    intro s h
    cases htr : s.tracks with
    | nil => simp [htr]
    | cons x l => exact absurd (h x (by simp [htr])) (by simp)
  | cons k ks ih =>
    intro s h
    simp only [List.foldl_cons]
    apply ih
    intro p hp
    rw [closeTrack_tracks] at hp
    have hmem := List.mem_of_mem_filter hp
    have hne : (p.1 != k) = true := (List.mem_filter.mp hp).2
    have := h p hmem
    simp only [List.mem_cons] at this
    rcases this with hk | hks
    · exact absurd hk (by simpa [bne] using hne)
    · exact hks

lemma foldl_closeTrack_noop (ks : List TrackId) :
    ∀ s : SourceState, s.tracks = [] →
      ks.foldl (fun acc t => closeTrack t acc) s = s := by
  induction ks with
  | nil => intro s _; rfl
  | cons k ks ih =>
    intro s hnil
    have hstep : closeTrack k s = s := by
      apply closeTrack_notMem
      intro p hp
      rw [hnil] at hp
      exact absurd hp (by simp)
    simp only [List.foldl_cons, hstep]
    exact ih s hnil

lemma foldl_closeTrack_stop (ks : List TrackId) :
    ∀ s : SourceState, (∀ p ∈ s.tracks, p.1 ∈ ks) → s.tracks ≠ [] →
      (ks.foldl (fun acc t => closeTrack t acc) s).running = false ∧
      (ks.foldl (fun acc t => closeTrack t acc) s).stopCount = s.stopCount + 1 := by
  induction ks with
  | nil =>
    intro s h hne
    rcases htr : s.tracks with _ | ⟨x, l⟩
    · exact absurd htr hne
    · exact absurd (h x (by simp [htr])) (by simp)
  | cons k ks ih =>
    intro s h hne
    simp only [List.foldl_cons]
    rcases hempty : (closeTrack k s).tracks with _ | ⟨x, l⟩
    · have hclosed : (closeTrack k s).running = false ∧
          (closeTrack k s).stopCount = s.stopCount + 1 := by
        rcases closeTrack_spec k s with ⟨-, heqs⟩ | ⟨a, buffer, -, htr, -, hstop, -⟩
        · rw [heqs] at hempty
          exact absurd hempty hne
        · apply hstop
          rw [← htr, hempty]
          rfl
      rw [foldl_closeTrack_noop ks (closeTrack k s) hempty]
      exact hclosed
    · have hne' : (closeTrack k s).tracks ≠ [] := by
        rw [hempty]
        simp
      have hcover : ∀ p ∈ (closeTrack k s).tracks, p.1 ∈ ks := by
        intro p hp
        rw [closeTrack_tracks] at hp
        have hmem := List.mem_of_mem_filter hp
        have hneq : (p.1 != k) = true := (List.mem_filter.mp hp).2
        have := h p hmem
        simp only [List.mem_cons] at this
        rcases this with hk | hks
        · exact absurd hk (by simpa [bne] using hneq)
        · exact hks
      have hsame : (closeTrack k s).stopCount = s.stopCount := by
        rcases closeTrack_spec k s with ⟨-, heqs⟩ | ⟨a, buffer, -, htr, -, -, hkeep⟩
        · rw [heqs]
        · refine (hkeep ?_).2
          rw [← htr, hempty]
          simp
      have := ih (closeTrack k s) hcover hne'
      rw [hsame] at this
      exact this

lemma foldl_closeTrack_closedBuffers_mono (ks : List TrackId) :
    ∀ (s : SourceState) (x : TrackId), x ∈ s.closedBuffers.map Prod.fst →
      x ∈ (ks.foldl (fun acc t => closeTrack t acc) s).closedBuffers.map Prod.fst := by
  induction ks with
  | nil => intro s x hx; simpa using hx
  | cons k ks ih =>
    intro s x hx
    simp only [List.foldl_cons]
    apply ih
    rcases closeTrack_spec k s with ⟨-, heqs⟩ | ⟨a, buffer, -, -, hcb, -, -⟩
    · rw [heqs]; exact hx
    · rw [hcb]
      simp only [List.map_append, List.mem_append]
      exact Or.inl hx

lemma foldl_closeTrack_covers (ks : List TrackId) :
    ∀ (s : SourceState) (p : TrackId × Buffer), p ∈ s.tracks → p.1 ∈ ks →
      p.1 ∈ (ks.foldl (fun acc t => closeTrack t acc) s).closedBuffers.map Prod.fst := by
  induction ks with
  | nil => intro s p _ hk; exact absurd hk (by simp)
  | cons k ks ih =>
    intro s p hp hk
    simp only [List.foldl_cons]
    by_cases hpk : p.1 = k
    · rcases closeTrack_spec k s with ⟨hnone, -⟩ | ⟨a, buffer, -, -, hcb, -, -⟩
      · exfalso
        have := List.find?_eq_none.mp hnone p hp
        simp [hpk] at this
      · apply foldl_closeTrack_closedBuffers_mono
        rw [hcb, hpk]
        simp
    · have hks : p.1 ∈ ks := by
        simp only [List.mem_cons] at hk
        exact hk.resolve_left hpk
      apply ih (closeTrack k s) p _ hks
      rw [closeTrack_tracks]
      rw [List.mem_filter]
      exact ⟨hp, by simpa [bne] using hpk⟩

lemma readLoopRun_until_fail (cs : List Chunk) :
    ∀ (post : List ReadResult) (s : SourceState),
      readLoopRun (cs.map ReadResult.ok ++ ReadResult.fail :: post) s =
        (closeAll (cs.foldl (fun acc c => writeAll c acc) s), cs.length + 1) := by
  induction cs with
  | nil => intro post s; rfl
  | cons c cs ih =>
    intro post s
    simp only [List.map_cons, List.cons_append, readLoopRun, List.append_eq, ih,
      List.foldl_cons, List.length_cons]

lemma foldl_writeAll_keys (cs : List Chunk) :
    ∀ s : SourceState,
      (cs.foldl (fun acc c => writeAll c acc) s).tracks.map Prod.fst =
        s.tracks.map Prod.fst ∧
      (cs.foldl (fun acc c => writeAll c acc) s).stopCount = s.stopCount := by
  induction cs with
  | nil => intro s; exact ⟨rfl, rfl⟩
  | cons c cs ih =>
    intro s
    simp only [List.foldl_cons]
    refine ⟨?_, (ih (writeAll c s)).2⟩
    rw [(ih (writeAll c s)).1, writeAll_keys]

/-- C4: when a device `Read` in the fan-out loop returns an error after `cs`
successful reads, the loop consumes exactly those reads plus the failing one
(the later results are never read: no retry), terminates, and its deferred
handler closes every outstanding track through `CloseTrack`: the association
map ends empty, each previously outstanding track's buffer is closed, and if
any track was outstanding the device-stop bookkeeping runs exactly once. -/
theorem c4_read_error_closes_all_tracks (cs : List Chunk)
    (post : List ReadResult) (s : SourceState) :
    (readLoopRun (cs.map ReadResult.ok ++ ReadResult.fail :: post) s).2 =
      cs.length + 1 ∧
    (readLoopRun (cs.map ReadResult.ok ++ ReadResult.fail :: post) s).1.tracks = [] ∧
    (∀ p ∈ s.tracks, p.1 ∈
      (readLoopRun (cs.map ReadResult.ok ++ ReadResult.fail :: post) s).1.closedBuffers.map
        Prod.fst) ∧
    (s.tracks ≠ [] →
      (readLoopRun (cs.map ReadResult.ok ++ ReadResult.fail :: post) s).1.running = false ∧
      (readLoopRun (cs.map ReadResult.ok ++ ReadResult.fail :: post) s).1.stopCount =
        s.stopCount + 1) := by
  rw [readLoopRun_until_fail]
  have hkeys := (foldl_writeAll_keys cs s).1
  have hstopc := (foldl_writeAll_keys cs s).2
  refine ⟨rfl, ?_, ?_, ?_⟩
  · apply foldl_closeTrack_tracks_nil
    intro p hp
    exact List.mem_map_of_mem Prod.fst hp
  · intro p hp
    have hkey : p.1 ∈ (cs.foldl (fun acc c => writeAll c acc) s).tracks.map Prod.fst := by
      rw [hkeys]
      exact List.mem_map_of_mem Prod.fst hp
    rcases List.mem_map.mp hkey with ⟨q, hq, hfq⟩
    rw [← hfq]
    exact foldl_closeTrack_covers _ _ q hq (List.mem_map_of_mem Prod.fst hq)
  · intro hne
    have hne' : (cs.foldl (fun acc c => writeAll c acc) s).tracks ≠ [] := by
      intro hnil
      apply hne
      have : s.tracks.map Prod.fst = [] := by
        rw [← hkeys, hnil]
        rfl
      simpa using this
    have := foldl_closeTrack_stop _ _ (fun p hp => List.mem_map_of_mem Prod.fst hp) hne'
    rw [hstopc] at this
    exact this

/-- Witness for C4: a source with one open track, one good read, then a read
error followed by an unread result: two reads consumed, map emptied, track 0's
buffer closed, device stopped once. -/
theorem c4_read_error_closes_all_tracks_witness :
    (readLoopRun ([[1]].map ReadResult.ok ++ ReadResult.fail ::
        [ReadResult.ok [2]]) (run [Ev.get])).2 = 2 ∧
    (readLoopRun ([[1]].map ReadResult.ok ++ ReadResult.fail ::
        [ReadResult.ok [2]]) (run [Ev.get])).1.tracks = [] ∧
    (0 : TrackId) ∈ (readLoopRun ([[1]].map ReadResult.ok ++ ReadResult.fail ::
        [ReadResult.ok [2]]) (run [Ev.get])).1.closedBuffers.map Prod.fst ∧
    (readLoopRun ([[1]].map ReadResult.ok ++ ReadResult.fail ::
        [ReadResult.ok [2]]) (run [Ev.get])).1.running = false ∧
    (readLoopRun ([[1]].map ReadResult.ok ++ ReadResult.fail ::
        [ReadResult.ok [2]]) (run [Ev.get])).1.stopCount =
      (run [Ev.get]).stopCount + 1 := by
  have h := c4_read_error_closes_all_tracks [[1]] [ReadResult.ok [2]] (run [Ev.get])
  refine ⟨h.1, h.2.1, ?_, ?_, ?_⟩
  · exact h.2.2.1 (0, []) (by decide)
  · exact (h.2.2.2 (by decide)).1
  · exact (h.2.2.2 (by decide)).2

/-! ### Fan-out delivery -/

lemma closeAll_tracks (s : SourceState) : (closeAll s).tracks = [] :=
  foldl_closeTrack_tracks_nil _ s (fun _ hp => List.mem_map_of_mem Prod.fst hp)

lemma foldl_closeTrack_nextId (ks : List TrackId) :
    ∀ s : SourceState,
      (ks.foldl (fun acc t => closeTrack t acc) s).nextId = s.nextId := by
  induction ks with
  | nil => intro s; rfl
  | cons k ks ih =>
    intro s
    simp only [List.foldl_cons]
    rw [ih, closeTrack_nextId]

lemma closeAll_nextId (s : SourceState) : (closeAll s).nextId = s.nextId :=
  foldl_closeTrack_nextId _ s

lemma buffer_eq_of_mem :
    ∀ {l : List (TrackId × Buffer)}, (l.map Prod.fst).Nodup →
      ∀ {t : TrackId} {b₁ b₂ : Buffer}, (t, b₁) ∈ l → (t, b₂) ∈ l → b₁ = b₂ := by
  intro l
  induction l with
  | nil => intro _ t b₁ b₂ h₁ _; exact absurd h₁ (by simp)
  | cons p l ih =>
    intro hnd t b₁ b₂ h₁ h₂
    simp only [List.map_cons, List.nodup_cons] at hnd
    rcases List.mem_cons.mp h₁ with h₁ | h₁ <;> rcases List.mem_cons.mp h₂ with h₂ | h₂
    · rw [← h₂] at h₁
      simpa using h₁
    · exfalso
      apply hnd.1
      have hmem : t ∈ l.map Prod.fst := List.mem_map.mpr ⟨(t, b₂), h₂, rfl⟩
      rw [← h₁]
      exact hmem
    · exfalso
      apply hnd.1
      have hmem : t ∈ l.map Prod.fst := List.mem_map.mpr ⟨(t, b₁), h₁, rfl⟩
      rw [← h₂]
      exact hmem
    · exact ih hnd.2 h₁ h₂

lemma step_avoid {s : SourceState} {t : TrackId} (hlt : t < s.nextId)
    (havoid : ∀ p ∈ s.tracks, p.1 ≠ t) (e : Ev) :
    t < (step s e).nextId ∧ ∀ p ∈ (step s e).tracks, p.1 ≠ t := by
  cases e with
  | get =>
    constructor
    · rw [show (step s Ev.get).nextId = ((getTrack s).2).nextId from rfl, getTrack_nextId]
      exact Nat.lt_succ_of_lt hlt
    · intro p hp
      rw [show (step s Ev.get).tracks = ((getTrack s).2).tracks from rfl,
        getTrack_snd_tracks] at hp
      rcases List.mem_append.mp hp with hp | hp
      · exact havoid p hp
      · simp only [List.mem_singleton] at hp
        rw [hp]
        exact fun hcontra => absurd (hcontra ▸ hlt) (lt_irrefl _)
  | closeT t' =>
    constructor
    · rw [show (step s (Ev.closeT t')).nextId = (closeTrack t' s).nextId from rfl,
        closeTrack_nextId]
      exact hlt
    · intro p hp
      rw [show (step s (Ev.closeT t')).tracks = (closeTrack t' s).tracks from rfl,
        closeTrack_tracks] at hp
      exact havoid p (List.mem_of_mem_filter hp)
  | read c =>
    constructor
    · exact hlt
    · intro p hp
      rw [show (step s (Ev.read c)).tracks = (writeAll c s).tracks from rfl,
        writeAll_tracks] at hp
      rcases List.mem_map.mp hp with ⟨q, hq, hfq⟩
      rw [← hfq]
      exact havoid q hq
  | readErr =>
    constructor
    · rw [show (step s Ev.readErr).nextId = (closeAll s).nextId from rfl, closeAll_nextId]
      exact hlt
    · intro p hp
      rw [show (step s Ev.readErr).tracks = (closeAll s).tracks from rfl,
        closeAll_tracks] at hp
      exact absurd hp (by simp)
  | closeSource =>
    constructor
    · rw [show (step s Ev.closeSource).nextId = (closeAll s).nextId from rfl, closeAll_nextId]
      exact hlt
    · intro p hp
      rw [show (step s Ev.closeSource).tracks = (closeAll s).tracks from rfl,
        closeAll_tracks] at hp
      exact absurd hp (by simp)

lemma keys_avoid_runFrom (es : List Ev) :
    ∀ (s : SourceState) (t : TrackId), t < s.nextId → (∀ p ∈ s.tracks, p.1 ≠ t) →
      ∀ p ∈ (runFrom es s).tracks, p.1 ≠ t := by
  induction es with
  | nil => intro s t _ havoid p hp; exact havoid p hp
  | cons e es ih =>
    intro s t hlt havoid p hp
    have hstep := step_avoid hlt havoid e
    exact ih (step s e) t hstep.1 hstep.2 p hp

lemma deliver_from_mem (es : List Ev) :
    ∀ (s : SourceState), Inv s → ∀ (t : TrackId) (b₀ : Buffer), (t, b₀) ∈ s.tracks →
      ∀ b, (t, b) ∈ (runFrom es s).tracks → b = b₀ ++ collect t es := by
  induction es with
  | nil =>
    intro s hinv t b₀ hmem b hb
    have : b = b₀ := buffer_eq_of_mem hinv.nodupKeys hb hmem
    simp [this, collect]
  | cons e es ih =>
    intro s hinv t b₀ hmem b hb
    have hb' : (t, b) ∈ (runFrom es (step s e)).tracks := hb
    cases e with
    | get =>
      have hmem' : (t, b₀) ∈ ((getTrack s).2).tracks := by
        rw [getTrack_snd_tracks]
        exact List.mem_append_left _ hmem
      simpa [collect] using ih (step s Ev.get) (inv_getTrack hinv) t b₀ hmem' b hb'
    | read c =>
      have hmem' : (t, b₀ ++ [c]) ∈ (writeAll c s).tracks := by
        rw [writeAll_tracks]
        exact List.mem_map.mpr ⟨(t, b₀), hmem, rfl⟩
      have := ih (step s (Ev.read c)) (inv_writeAll hinv c) t (b₀ ++ [c]) hmem' b hb'
      simp only [collect]
      rw [this, List.append_assoc]
      rfl
    | closeT t' =>
      by_cases ht : t' = t
      · exfalso
        subst ht
        have hlt : t' < (closeTrack t' s).nextId := by
          rw [closeTrack_nextId]
          exact hinv.keysLt _ hmem
        have havoid : ∀ p ∈ (closeTrack t' s).tracks, p.1 ≠ t' := by
          intro p hp
          rw [closeTrack_tracks] at hp
          simpa [bne] using (List.mem_filter.mp hp).2
        exact keys_avoid_runFrom es (closeTrack t' s) t' hlt havoid (t', b) hb' rfl
      · have hmem' : (t, b₀) ∈ (closeTrack t' s).tracks := by
          rw [closeTrack_tracks]
          rw [List.mem_filter]
          refine ⟨hmem, ?_⟩
          simp [bne]
          exact fun hcontra => ht hcontra.symm
        have := ih (step s (Ev.closeT t')) (inv_closeTrack hinv t') t b₀ hmem' b hb'
        simp only [collect, beq_iff_eq, if_neg ht]
        exact this
    | readErr =>
      exfalso
      have hlt : t < (closeAll s).nextId := by
        rw [closeAll_nextId]
        exact hinv.keysLt _ hmem
      have havoid : ∀ p ∈ (closeAll s).tracks, p.1 ≠ t := by
        rw [closeAll_tracks]
        intro p hp
        exact absurd hp (by simp)
      exact keys_avoid_runFrom es (closeAll s) t hlt havoid (t, b) hb' rfl
    | closeSource =>
      exfalso
      have hlt : t < (sourceClose s).nextId := by
        rw [show (sourceClose s).nextId = (closeAll s).nextId from rfl, closeAll_nextId]
        exact hinv.keysLt _ hmem
      have havoid : ∀ p ∈ (sourceClose s).tracks, p.1 ≠ t := by
        rw [show (sourceClose s).tracks = (closeAll s).tracks from rfl, closeAll_tracks]
        intro p hp
        exact absurd hp (by simp)
      exact keys_avoid_runFrom es (sourceClose s) t hlt havoid (t, b) hb' rfl

lemma deliver_from_future (es : List Ev) :
    ∀ (s : SourceState), Inv s → ∀ (n : Nat) (b : Buffer),
      (s.nextId + n, b) ∈ (runFrom es s).tracks →
      ∃ rest, postSub es n = some rest ∧ b = collect (s.nextId + n) rest := by
  induction es with
  | nil =>
    intro s hinv n b hb
    exfalso
    have h1 : s.nextId + n < s.nextId := hinv.keysLt _ hb
    exact absurd h1 (Nat.not_lt.mpr (Nat.le_add_right s.nextId n))
  | cons e es ih =>
    intro s hinv n b hb
    have hb' : (s.nextId + n, b) ∈ (runFrom es (step s e)).tracks := hb
    cases e with
    | get =>
      cases n with
      | zero =>
        have hmem : (s.nextId, ([] : Buffer)) ∈ ((getTrack s).2).tracks := by
          rw [getTrack_snd_tracks]
          exact List.mem_append_right _ (by simp)
        have hb0 : (s.nextId, b) ∈ (runFrom es (step s Ev.get)).tracks := by
          simpa using hb'
        have := deliver_from_mem es (step s Ev.get) (inv_getTrack hinv)
          s.nextId [] hmem b hb0
        exact ⟨es, rfl, by simpa using this⟩
      | succ m =>
        have hrw : s.nextId + (m + 1) = ((getTrack s).2).nextId + m := by
          rw [getTrack_nextId]
          exact Nat.add_right_comm s.nextId m 1
        have hb1 : (((getTrack s).2).nextId + m, b) ∈
            (runFrom es (step s Ev.get)).tracks := by
          rw [← hrw]
          exact hb'
        rcases ih (step s Ev.get) (inv_getTrack hinv) m b hb1 with ⟨rest, hps, hcol⟩
        refine ⟨rest, hps, ?_⟩
        rw [hrw]
        exact hcol
    | closeT t' =>
      have hrw : s.nextId + n = (closeTrack t' s).nextId + n := by
        rw [closeTrack_nextId]
      rcases ih (step s (Ev.closeT t')) (inv_closeTrack hinv t') n b (hrw ▸ hb') with
        ⟨rest, hps, hcol⟩
      exact ⟨rest, hps, by rw [hrw]; exact hcol⟩
    | read c =>
      exact ih (step s (Ev.read c)) (inv_writeAll hinv c) n b hb'
    | readErr =>
      have hrw : s.nextId + n = (closeAll s).nextId + n := by
        rw [closeAll_nextId]
      rcases ih (step s Ev.readErr) (inv_closeAll hinv) n b (hrw ▸ hb') with
        ⟨rest, hps, hcol⟩
      exact ⟨rest, hps, by rw [hrw]; exact hcol⟩
    | closeSource =>
      have hrw : s.nextId + n = (sourceClose s).nextId + n := by
        rw [show (sourceClose s).nextId = (closeAll s).nextId from rfl, closeAll_nextId]
      rcases ih (step s Ev.closeSource) (inv_sourceClose hinv) n b (hrw ▸ hb') with
        ⟨rest, hps, hcol⟩
      exact ⟨rest, hps, by rw [hrw]; exact hcol⟩

/-- C1: every chunk successfully read by the fan-out loop is written into
every buffer associated at that iteration, so any track still associated
after an event sequence holds exactly the chunks read after its own
`GetTrack`, in device order, with no gaps: its buffer equals the
specification stream `specDelivered`. In particular a track opened before
any reads holds every chunk, and a track opened after chunk `A` holds
exactly the later chunks. -/
theorem c1_track_receives_chunks_after_subscription (es : List Ev) (t : TrackId)
    (b : Buffer) (h : (t, b) ∈ (run es).tracks) : b = specDelivered es t := by
  have h0 : (initState.nextId + t, b) ∈ (runFrom es initState).tracks := by
    simpa [run, initState] using h
  rcases deliver_from_future es initState inv_initState t b h0 with ⟨rest, hps, hcol⟩
  rw [specDelivered, hps]
  simpa [initState] using hcol

/-- Witness for C1, the spec's scenario: device yields `A,B,C`; track 0 opens
before any read and ends with `A,B,C`; track 1 opens after `A` is delivered
and ends with exactly `B,C`. -/
theorem c1_track_receives_chunks_after_subscription_witness :
    ([[1], [2], [3]] : Buffer) =
      specDelivered [Ev.get, Ev.read [1], Ev.get, Ev.read [2], Ev.read [3]] 0 ∧
    ([[2], [3]] : Buffer) =
      specDelivered [Ev.get, Ev.read [1], Ev.get, Ev.read [2], Ev.read [3]] 1 :=
  ⟨c1_track_receives_chunks_after_subscription
      [Ev.get, Ev.read [1], Ev.get, Ev.read [2], Ev.read [3]] 0 [[1], [2], [3]] (by decide),
   c1_track_receives_chunks_after_subscription
      [Ev.get, Ev.read [1], Ev.get, Ev.read [2], Ev.read [3]] 1 [[2], [3]] (by decide)⟩

end Alohartc
